import Mathlib

/-!
Shallow embedding of the third-party-notices generator
(`scripts/generate_third_party_notices.py`) and its drift checker
(`scripts/check_third_party_notices.py`).

Strings are modelled by Lean `String`, but every operation the scripts
perform on them (lower-casing, stripping, lexicographic comparison) is
re-implemented here over `String.data` so that all definitions reduce in
the kernel.  Python's `str.lower` is modelled ASCII-faithfully by
`Char.toLower`; `str.strip` / `str.rstrip` strip the ASCII whitespace
characters.  Python's `sorted` (a stable sort by a key tuple, compared
lexicographically with strict `<`) is modelled by the stable insertion
sort `pySorted`.
-/

/-- Python `str.lower`, character by character (ASCII range). -/
def lowerStr (s : String) : String := ⟨s.data.map Char.toLower⟩

/-- The whitespace characters stripped by Python `str.strip` / `str.rstrip`. -/
def wsChar (c : Char) : Bool :=
  c == ' ' || c == '\t' || c == '\n' || c == '\r' || c == '\x0c' || c == '\x0b'

/-- Strip whitespace from both ends of a character list. -/
def stripList (l : List Char) : List Char :=
  ((l.dropWhile wsChar).reverse.dropWhile wsChar).reverse

/-- Python `str.strip()`. -/
def pyStrip (s : String) : String := ⟨stripList s.data⟩

/-- Python `str.rstrip()`. -/
def pyRstrip (s : String) : String := ⟨(s.data.reverse.dropWhile wsChar).reverse⟩

/-- Strict lexicographic order on character lists: Python `str.__lt__`
by Unicode code point. -/
def listLt : List Char → List Char → Bool
  | [], [] => false
  | [], _ :: _ => true
  | _ :: _, [] => false
  | a :: as, b :: bs => if a < b then true else if b < a then false else listLt as bs

theorem listLt_irrefl : ∀ a : List Char, listLt a a = false := by
  intro a
  induction a with
  | nil => rfl
  | cons x xs ih => simp [listLt, ih]

theorem listLt_asymm : ∀ a b : List Char, listLt a b = true → listLt b a = false := by
  intro a
  induction a with
  | nil => intro b h; cases b <;> simp_all [listLt]
  | cons x xs ih =>
    intro b h
    cases b with
    | nil => simp [listLt] at h
    | cons y ys =>
      by_cases hxy : x < y
      · simp [listLt, hxy, asymm hxy, not_lt_of_lt hxy]
      · by_cases hyx : y < x
        · simp [listLt, hxy, hyx] at h
        · simp only [listLt, if_neg hxy, if_neg hyx] at h
          simp [listLt, hxy, hyx, ih _ h]

theorem listLt_trichot : ∀ a b : List Char,
    listLt a b = true ∨ listLt b a = true ∨ a = b := by
  intro a
  induction a with
  | nil => intro b; cases b <;> simp [listLt]
  | cons x xs ih =>
    intro b
    cases b with
    | nil => simp [listLt]
    | cons y ys =>
      by_cases hxy : x < y
      · left; simp [listLt, hxy]
      · by_cases hyx : y < x
        · right; left; simp [listLt, hyx, hxy]
        · have hx : x = y := le_antisymm (not_lt.mp hyx) (not_lt.mp hxy)
          subst hx
          rcases ih ys with h | h | h
          · left; simp [listLt, h]
          · right; left; simp [listLt, h]
          · right; right; rw [h]

theorem listLt_trans : ∀ a b c : List Char,
    listLt a b = true → listLt b c = true → listLt a c = true := by
  intro a
  induction a with
  | nil =>
    intro b c hab hbc
    cases b with
    | nil => simp [listLt] at hab
    | cons y ys => cases c with
      | nil => simp [listLt] at hbc
      | cons z zs => simp [listLt]
  | cons x xs ih =>
    intro b c hab hbc
    cases b with
    | nil => simp [listLt] at hab
    | cons y ys =>
      cases c with
      | nil => simp [listLt] at hbc
      | cons z zs =>
        simp only [listLt] at hab hbc ⊢
        by_cases hxy : x < y
        · by_cases hyz : y < z
          · simp [lt_trans hxy hyz]
          · by_cases hzy : z < y
            · simp [listLt, hyz, hzy] at hbc
            · have : y = z := le_antisymm (not_lt.mp hzy) (not_lt.mp hyz)
              subst this
              simp [hxy]
        · by_cases hyx : y < x
          · simp [hxy, hyx] at hab
          · have hx : x = y := le_antisymm (not_lt.mp hyx) (not_lt.mp hxy)
            subst hx
            rw [if_neg hxy, if_neg hxy] at hab
            by_cases hyz : x < z
            · simp [hyz]
            · by_cases hzy : z < x
              · simp [hyz, hzy] at hbc
              · simp only [if_neg hyz, if_neg hzy] at hbc ⊢
                exact ih _ _ hab hbc

/-- Strict lexicographic order on key tuples (encoded as lists of
character lists), as Python compares tuples of strings. -/
def tupLt : List (List Char) → List (List Char) → Bool
  | [], [] => false
  | [], _ :: _ => true
  | _ :: _, [] => false
  | a :: as, b :: bs =>
    if listLt a b then true else if listLt b a then false else tupLt as bs

theorem tupLt_irrefl : ∀ a : List (List Char), tupLt a a = false := by
  intro a
  induction a with
  | nil => rfl
  | cons x xs ih => simp [tupLt, listLt_irrefl, ih]

theorem tupLt_trichot : ∀ a b : List (List Char),
    tupLt a b = true ∨ tupLt b a = true ∨ a = b := by
  intro a
  induction a with
  | nil => intro b; cases b <;> simp [tupLt]
  | cons x xs ih =>
    intro b
    cases b with
    | nil => simp [tupLt]
    | cons y ys =>
      by_cases hxy : listLt x y = true
      · left; simp [tupLt, hxy]
      · by_cases hyx : listLt y x = true
        · right; left; simp [tupLt, hyx, hxy]
        · rcases listLt_trichot x y with h | h | h
          · exact absurd h hxy
          · exact absurd h hyx
          · subst h
            rcases ih ys with h | h | h
            · left; simp [tupLt, listLt_irrefl, h]
            · right; left; simp [tupLt, listLt_irrefl, h]
            · right; right; rw [h]

theorem tupLt_trans : ∀ a b c : List (List Char),
    tupLt a b = true → tupLt b c = true → tupLt a c = true := by
  intro a
  induction a with
  | nil =>
    intro b c hab hbc
    cases b with
    | nil => simp [tupLt] at hab
    | cons y ys => cases c with
      | nil => simp [tupLt] at hbc
      | cons z zs => simp [tupLt]
  | cons x xs ih =>
    intro b c hab hbc
    cases b with
    | nil => simp [tupLt] at hab
    | cons y ys =>
      cases c with
      | nil => simp [tupLt] at hbc
      | cons z zs =>
        simp only [tupLt] at hab hbc ⊢
        by_cases hxy : listLt x y = true
        · by_cases hyz : listLt y z = true
          · simp [listLt_trans _ _ _ hxy hyz]
          · by_cases hzy : listLt z y = true
            · simp [hyz, hzy] at hbc
            · rcases listLt_trichot y z with h | h | h
              · exact absurd h hyz
              · exact absurd h hzy
              · subst h; simp [hxy]
        · by_cases hyx : listLt y x = true
          · simp [hxy, hyx] at hab
          · rcases listLt_trichot x y with h | h | h
            · exact absurd h hxy
            · exact absurd h hyx
            · subst h
              have hxx : listLt x x = false := listLt_irrefl x
              simp only [hxx, Bool.false_eq_true, if_false] at hab
              by_cases hyz : listLt x z = true
              · simp [hyz]
              · by_cases hzy : listLt z x = true
                · simp [hyz, hzy] at hbc
                · simp only [if_neg hyz, if_neg hzy] at hbc ⊢
                  exact ih _ _ hab hbc

theorem tupLt_asymm (a b : List (List Char)) (h : tupLt a b = true) :
    tupLt b a = false := by
  by_contra hba
  have hba : tupLt b a = true := by
    cases hh : tupLt b a
    · exact absurd hh hba
    · rfl
  have := tupLt_trans a b a h hba
  rw [tupLt_irrefl] at this
  exact Bool.false_ne_true this

/-- Stable insertion of one element: the new element is placed before the
first existing element it does not strictly exceed.  With a strict key
comparison this realises exactly the placement a stable sort gives to an
element that arrives later in the input. -/
def stableInsert {α : Type} (lt : α → α → Bool) (x : α) : List α → List α
  | [] => [x]
  | y :: ys => if lt y x then y :: stableInsert lt x ys else x :: y :: ys

/-- Python `sorted(l, key=...)`: a stable sort by the strict comparison
`lt` (CPython's sort is stable; any stable sort computes the same list). -/
def pySorted {α : Type} (lt : α → α → Bool) : List α → List α
  | [] => []
  | x :: xs => stableInsert lt x (pySorted lt xs)

theorem stableInsert_perm {α : Type} (lt : α → α → Bool) (x : α) :
    ∀ l : List α, (stableInsert lt x l).Perm (x :: l) := by
  intro l
  induction l with
  | nil => simp [stableInsert]
  | cons y ys ih =>
    by_cases h : lt y x
    · simp only [stableInsert, if_pos h]
      exact (ih.cons y).trans (List.Perm.swap x y ys)
    · simp [stableInsert, if_neg h]

theorem pySorted_perm {α : Type} (lt : α → α → Bool) :
    ∀ l : List α, (pySorted lt l).Perm l := by
  intro l
  induction l with
  | nil => simp [pySorted]
  | cons x xs ih =>
    exact (stableInsert_perm lt x (pySorted lt xs)).trans (ih.cons x)

/-- Comparison of two values through a key tuple, as Python
`sorted(..., key=...)` compares elements. -/
def keyLt {α : Type} (key : α → List (List Char)) (a b : α) : Bool :=
  tupLt (key a) (key b)

theorem keyLt_eq_of_not (key : α → List (List Char)) (a b : α)
    (hab : keyLt key a b = false) (hba : keyLt key b a = false) :
    key a = key b := by
  rcases tupLt_trichot (key a) (key b) with h | h | h
  · exact absurd h (by simp [keyLt] at hab; simp [hab])
  · exact absurd h (by simp [keyLt] at hba; simp [hba])
  · exact h

theorem pairwise_stableInsert {α : Type} (key : α → List (List Char)) (x : α) :
    ∀ l : List α, l.Pairwise (fun a b => keyLt key b a = false) →
      (stableInsert (keyLt key) x l).Pairwise (fun a b => keyLt key b a = false) := by
  intro l
  induction l with
  | nil => intro _; simp [stableInsert]
  | cons y ys ih =>
    intro hp
    rcases List.pairwise_cons.mp hp with ⟨hy, hys⟩
    by_cases h : keyLt key y x = true
    · simp only [stableInsert, if_pos h]
      refine List.pairwise_cons.mpr ⟨?_, ih hys⟩
      intro z hz
      have hz' : z ∈ x :: ys := (stableInsert_perm (keyLt key) x ys).mem_iff.mp hz
      rcases List.mem_cons.mp hz' with rfl | hz''
      · exact tupLt_asymm _ _ h
      · exact hy z hz''
    · have h' : keyLt key y x = false := by
        cases hh : keyLt key y x
        · rfl
        · exact absurd hh h
      simp only [stableInsert, if_neg h]
      refine List.pairwise_cons.mpr ⟨?_, hp⟩
      intro z hz
      rcases List.mem_cons.mp hz with rfl | hz'
      · exact h'
      · cases hh : keyLt key z x
        · rfl
        · rcases tupLt_trichot (key z) (key y) with h1 | h1 | h1
          · exact absurd h1 (by simp [keyLt] at hy ⊢; simp [hy z hz'])
          · have : keyLt key y x = true :=
              tupLt_trans (key y) (key z) (key x) h1 hh
            exact absurd this h
          · have : keyLt key y x = true := by
              simp only [keyLt] at hh ⊢
              rw [← h1]
              exact hh
            exact absurd this h

theorem pairwise_pySorted {α : Type} (key : α → List (List Char)) :
    ∀ l : List α, (pySorted (keyLt key) l).Pairwise (fun a b => keyLt key b a = false) := by
  intro l
  induction l with
  | nil => simp [pySorted]
  | cons x xs ih =>
    exact pairwise_stableInsert key x (pySorted (keyLt key) xs) ih

/-- A sorted list with pairwise-distinct keys is determined by its
multiset of elements: two sorted permutations of each other are equal.
This is what makes the generator's output independent of the order in
which Python's `set` happens to enumerate the collected pairs — provided
no two distinct elements share a sort key. -/
theorem sorted_unique {α : Type} (key : α → List (List Char)) :
    ∀ l₁ l₂ : List α, l₁.Perm l₂ →
      l₁.Pairwise (fun a b => keyLt key b a = false) →
      l₂.Pairwise (fun a b => keyLt key b a = false) →
      l₁.Pairwise (fun a b => key a ≠ key b) →
      l₁ = l₂ := by
  intro l₁
  induction l₁ with
  | nil =>
    intro l₂ hperm _ _ _
    exact (hperm.nil_eq).symm ▸ rfl
  | cons a t₁ ih =>
    intro l₂ hperm hs₁ hs₂ hd₁
    cases l₂ with
    | nil => exact absurd hperm.symm.nil_eq (by simp)
    | cons b t₂ =>
      rcases List.pairwise_cons.mp hs₁ with ⟨ha, hs₁'⟩
      rcases List.pairwise_cons.mp hs₂ with ⟨hb, hs₂'⟩
      rcases List.pairwise_cons.mp hd₁ with ⟨hda, hd₁'⟩
      by_cases hab : a = b
      · subst hab
        have ht : t₁.Perm t₂ := hperm.cons_inv
        rw [ih t₂ ht hs₁' hs₂' hd₁']
      · have hain : a ∈ b :: t₂ := hperm.mem_iff.mp (List.mem_cons_self a t₁)
        have hat₂ : a ∈ t₂ := by
          rcases List.mem_cons.mp hain with h | h
          · exact absurd h hab
          · exact h
        have hbin : b ∈ a :: t₁ := hperm.symm.mem_iff.mp (List.mem_cons_self b t₂)
        have hbt₁ : b ∈ t₁ := by
          rcases List.mem_cons.mp hbin with h | h
          · exact absurd h.symm hab
          · exact h
        have h1 : keyLt key b a = false := ha b hbt₁
        have h2 : keyLt key a b = false := hb a hat₂
        have : key a = key b := keyLt_eq_of_not key a b h2 h1
        exact absurd this (hda b hbt₁)

/-- Decidable equality of `Except` results, for evaluating the embedding
at concrete inputs. -/
instance instExceptDecEq {ε α : Type} [DecidableEq ε] [DecidableEq α] :
    DecidableEq (Except ε α) := fun a b =>
  match a, b with
  | .error x, .error y => if h : x = y then .isTrue (by rw [h]) else .isFalse (by simp [h])
  | .error _, .ok _ => .isFalse (by simp)
  | .ok _, .error _ => .isFalse (by simp)
  | .ok x, .ok y => if h : x = y then .isTrue (by rw [h]) else .isFalse (by simp [h])

/-! ## XML documents and the nuspec metadata fetcher

The fetcher downloads `https://api.nuget.org/v3-flatcontainer/<id>/<ver>/<id>.nuspec`
and reads three fields out of the parsed XML.  The network layer
(`urllib.request.urlopen` + `resp.read()`) is modelled by a function
`net : String → Option String` from the request URL to the response body
(`none` models any exception raised while fetching: connection error,
timeout, read failure).  `xml.etree.ElementTree.fromstring` is modelled by
`parse : String → Option XmlNode` (`none` models a `ParseError` raised on
a malformed document).  Element tags are local names, because the script
matches them with the any-namespace pattern. -/

/-- An XML element: tag (local name), attributes, text, child elements. -/
inductive XmlNode where
  | elem (tag : String) (attrs : List (String × String)) (text : Option String)
      (children : List XmlNode)

def XmlNode.tag : XmlNode → String
  | .elem t _ _ _ => t

def XmlNode.attrs : XmlNode → List (String × String)
  | .elem _ a _ _ => a

def XmlNode.text : XmlNode → Option String
  | .elem _ _ x _ => x

def XmlNode.children : XmlNode → List XmlNode
  | .elem _ _ _ cs => cs

/-- All descendants of a node (excluding the node itself), in document
order, as `ElementTree`'s descendant axis enumerates them. -/
def XmlNode.descendants : XmlNode → List XmlNode
  | .elem _ _ _ cs => descendantsList cs
where descendantsList : List XmlNode → List XmlNode
  | [] => []
  | c :: cs => c :: c.descendants ++ descendantsList cs

/-- Python `element.attrib.get(k, d)`. -/
def attribGet (n : XmlNode) (k d : String) : String :=
  (n.attrs.lookup k).getD d

/-- The script's `root.find(".//{*}metadata/{*}<tag>")`: the first child
named `tag` of the first descendant named `metadata` that has such a
child, in document order. -/
def findMetaChild (root : XmlNode) (tag : String) : Option XmlNode :=
  root.descendants.findSome? fun m =>
    if m.tag == "metadata" then m.children.find? (fun c => c.tag == tag) else none

/-- The script's local helper `txt`: the stripped text of the node when
the node exists and its text is a non-`None`, non-empty string, else `""`. -/
def txtOf (n : Option XmlNode) : String :=
  match n with
  | some nd =>
    match nd.text with
    | some t => if t = "" then "" else pyStrip t
    | none => ""
  | none => ""

/-- The script's `txt(meta_prefix + ...)` applied to a metadata field. -/
def txtMeta (root : XmlNode) (tag : String) : String :=
  txtOf (findMetaChild root tag)

/-- The metadata dictionary returned by `fetch_nuspec_metadata`. -/
structure MetaRecord where
  license_name : String
  license_url : String
  homepage : String
  notes : String
deriving DecidableEq

/-- The request URL built by `fetch_nuspec_metadata` from the lowered
package id and version. -/
def nuspec_url (package_l version_l : String) : String :=
  "https://api.nuget.org/v3-flatcontainer/" ++ package_l ++ "/" ++ version_l
    ++ "/" ++ package_l ++ ".nuspec"

/-- The placeholder record returned when the network request raises. -/
def unknownFetchRecord : MetaRecord :=
  { license_name := "UNKNOWN"
    license_url := ""
    homepage := ""
    notes := "Unable to fetch nuspec metadata from nuget.org in this environment." }

/-- The function `fetch_nuspec_metadata(package_id, version)`.  Only the network
request and response read sit inside the `try`/`except`; the
`ET.fromstring(data)` call is outside it, so a parse failure is an
uncaught exception, modelled by `Except.error ()`. -/
def fetch_nuspec_metadata (net : String → Option String)
    (parse : String → Option XmlNode) (package_id version : String) :
    Except Unit MetaRecord :=
  let url := nuspec_url (lowerStr package_id) (lowerStr version)
  match net url with
  | none => .ok unknownFetchRecord
  | some data =>
    match parse data with
    | none => .error ()
    | some root =>
      let project_url := txtMeta root "projectUrl"
      let license_expr := txtMeta root "license"
      let license_url := txtMeta root "licenseUrl"
      let license_name :=
        if license_expr = "" then "UNKNOWN"
        else
          match findMetaChild root "license" with
          | some lic =>
            if lowerStr (attribGet lic "type" "") = "expression" then
              "SPDX: " ++ license_expr
            else if lowerStr (attribGet lic "type" "") = "file" then
              "License file: " ++ license_expr
            else license_expr
          | none => license_expr
      .ok { license_name := license_name
            license_url := license_url
            homepage := project_url
            notes := "" }

/-! ## The collector (`read_csproj_packages`)

A `<PackageReference>` manifest element carries an optional `Include`
attribute, an optional `Version` attribute, and optionally a nested
`<Version>` element whose text `findtext` returns. -/

structure PackageReference where
  includeAttr : Option String
  versionAttr : Option String
  versionChild : Option String

/-- Python truthiness of `attrib.get(...)`: present and non-empty. -/
def pyTruthy : Option String → Bool
  | some s => s ≠ ""
  | none => false

/-- Python `a or b` for an optional string `a` and default `b`. -/
def pyOrOpt (a : Option String) (b : String) : String :=
  match a with
  | some s => if s = "" then b else s
  | none => b

/-- One iteration of the collector's loop: the pair added to the set for
one `PackageReference` node, if any.  Mirrors
`version = node.attrib.get("Version") or (node.findtext("Version") or "")`
followed by `if include and version: packages.add((include.strip(), version.strip()))`.
Note the truthiness checks run on the raw, unstripped values. -/
def entryPair (e : PackageReference) : Option (String × String) :=
  let version := pyOrOpt e.versionAttr (pyOrOpt e.versionChild "")
  match e.includeAttr with
  | some inc => if inc ≠ "" ∧ version ≠ "" then some (pyStrip inc, pyStrip version) else none
  | none => none

/-- The contents of the `packages` set after the loop: all pairs added,
without duplicates.  (The enumeration order of a Python `set` is
unspecified; theorems about the collector take the enumeration as a
separate list known only up to permutation of this one.) -/
def collectedPairs (entries : List PackageReference) : List (String × String) :=
  (entries.filterMap entryPair).dedup

/-- Sort key of `sorted(packages, key=lambda x: (x[0].lower(), x[1]))`. -/
def pkgKey (p : String × String) : List (List Char) :=
  [(lowerStr p.1).data, p.2.data]

/-- The sequence returned by `read_csproj_packages`: the set, enumerated
in some order `enum`, sorted by `(name.lower(), version)`. -/
def read_csproj_packages (enum : List (String × String)) : List (String × String) :=
  pySorted (keyLt pkgKey) enum

/-! ## The bundled-component scanner and the report writer -/

/-- A component row of the report (the frozen dataclass `Component`). -/
structure Component where
  name : String
  version : String
  source : String
  license_name : String
  license_url : String
  homepage : String
  notes : String
deriving DecidableEq

/-- The candidate license file names, in the exact order the script
declares them. -/
def LICENSE_FILE_CANDIDATES : List String :=
  ["LICENSE", "LICENSE.txt", "LICENSE.md", "COPYING", "COPYING.txt", "NOTICE", "NOTICE.txt"]

/-- One immediate subdirectory of `third_party/`: its name, the names of
the files it contains, and their contents. -/
structure BundledDir where
  name : String
  files : List String
  content : String → String

/-- The scanner's search for a bundled license file:
`next((item / n for n in LICENSE_FILE_CANDIDATES if (item / n).exists()), None)`. -/
def findLicenseFile (d : BundledDir) : Option String :=
  LICENSE_FILE_CANDIDATES.find? (fun n => d.files.contains n)

/-- The component `detect_bundled_components` emits for one
subdirectory. -/
def bundledComponent (d : BundledDir) : Component :=
  let lic := findLicenseFile d
  { name := d.name
    version := "bundled"
    source := "Bundled"
    license_name := if lic.isSome then "See bundled files" else "UNKNOWN"
    license_url := ""
    homepage := ""
    notes := if lic.isSome then "License file copied from bundled component."
             else "No bundled license file detected." }

/-- Sort key of the scanner's `sorted(..., key=lambda p: p.name.lower())`. -/
def dirKey (d : BundledDir) : List (List Char) :=
  [(lowerStr d.name).data]

/-- The scanner `detect_bundled_components`: one component per immediate
subdirectory of `third_party/`, in name order.  `dirs` lists the
subdirectories as `iterdir` yields them. -/
def detect_bundled_components (dirs : List BundledDir) : List Component :=
  (pySorted (keyLt dirKey) dirs).map bundledComponent

/-- The sanitiser `safe_file_name`, i.e. `re.sub(r"[^A-Za-z0-9._-]+", "_", value)`.  The
regex class, over one character. -/
def isSafeChar (c : Char) : Bool :=
  (decide ('A' ≤ c) && decide (c ≤ 'Z')) || (decide ('a' ≤ c) && decide (c ≤ 'z'))
    || (decide ('0' ≤ c) && decide (c ≤ '9')) || c == '.' || c == '_' || c == '-'

/-- The substitution body: each maximal run of unsafe characters becomes
one `'_'` (the regex quantifier is `+`).  The flag records whether the
previous character was part of an unsafe run. -/
def subSafeAux : Bool → List Char → List Char
  | _, [] => []
  | inRun, c :: cs =>
    if isSafeChar c then c :: subSafeAux false cs
    else if inRun then subSafeAux true cs
    else '_' :: subSafeAux true cs

def safe_file_name (value : String) : String :=
  ⟨subSafeAux false value.data⟩

/-- The per-component license file name built by `write_license_file`. -/
def license_file_name (c : Component) : String :=
  c.source ++ "_" ++ safe_file_name c.name ++ "_" ++ safe_file_name c.version ++ ".txt"

/-- The `lines` list assembled by `write_license_file` before
serialisation.  For a `Bundled` component the script re-resolves
`root / "third_party" / component.name` and re-runs the candidate
search there; `dirs` is the same directory listing the scanner saw. -/
def license_file_lines (c : Component) (dirs : List BundledDir) : List String :=
  let base := ["Component: " ++ c.name,
    "Version: " ++ c.version,
    "Source: " ++ c.source,
    "License: " ++ c.license_name,
    "License URL: " ++ (if c.license_url = "" then "N/A" else c.license_url),
    "Homepage: " ++ (if c.homepage = "" then "N/A" else c.homepage),
    ""]
  let base := if c.notes ≠ "" then base ++ ["Notes: " ++ c.notes] else base
  if c.source = "Bundled" then
    match dirs.find? (fun d => d.name == c.name) with
    | some d =>
      match findLicenseFile d with
      | some f => base ++ ["", "----- Bundled license text -----", "", d.content f]
      | none => base
    | none => base
  else base

/-- The bytes `write_license_file` writes:
`"\n".join(lines).rstrip() + "\n"`. -/
def license_file_text (c : Component) (dirs : List BundledDir) : String :=
  pyRstrip (String.intercalate "\n" (license_file_lines c dirs)) ++ "\n"

/-! ## `generate` -/

/-- The NuGet component built from one collected pair and its fetched
metadata. -/
def toComponent (name version : String) (m : MetaRecord) : Component :=
  { name := name
    version := version
    source := "NuGet"
    license_name := m.license_name
    license_url := m.license_url
    homepage := m.homepage
    notes := m.notes }

/-- The fetch loop of `generate`: each fetch in order, the first uncaught
exception aborting the whole run. -/
def fetchAll (net : String → Option String) (parse : String → Option XmlNode) :
    List (String × String) → Except Unit (List Component)
  | [] => .ok []
  | p :: ps =>
    match fetch_nuspec_metadata net parse p.1 p.2 with
    | .error e => .error e
    | .ok m =>
      match fetchAll net parse ps with
      | .error e => .error e
      | .ok cs => .ok (toComponent p.1 p.2 m :: cs)

/-- Sort key of `generate`'s
`sorted(components, key=lambda c: (c.source, c.name.lower(), c.version))`. -/
def compKey (c : Component) : List (List Char) :=
  [c.source.data, (lowerStr c.name).data, c.version.data]

/-- The fully assembled, sorted component list of one `generate` run.
`pkgEnum` is the enumeration order of the collected package set and
`dirs` the `third_party/` listing. -/
def generate_components (net : String → Option String)
    (parse : String → Option XmlNode) (pkgEnum : List (String × String))
    (dirs : List BundledDir) : Except Unit (List Component) :=
  match fetchAll net parse (read_csproj_packages pkgEnum) with
  | .error e => .error e
  | .ok nuget =>
    .ok (pySorted (keyLt compKey) (nuget ++ detect_bundled_components dirs))

/-- One table row of the aggregate report. -/
def notice_row (c : Component) : String :=
  "| " ++ c.source ++ " | " ++ c.name ++ " | " ++ c.version ++ " | "
    ++ c.license_name ++ " | " ++ c.license_url ++ " |"

/-- The bytes `generate` writes to `THIRD_PARTY_NOTICES.md`. -/
def notice_text (comps : List Component) : String :=
  pyRstrip (String.intercalate "\n"
    (["# THIRD_PARTY_NOTICES",
      "",
      "This file is generated by `scripts/generate_third_party_notices.py`.",
      "",
      "## Included third-party components",
      "",
      "| Source | Name | Version | License | License URL |",
      "|---|---|---|---|---|"]
      ++ comps.map notice_row
      ++ ["",
        "## Per-component license files",
        "",
        "Detailed records are written to the `LICENSES/` directory."])) ++ "\n"

/-- The complete output of one `generate` run: the aggregate report and
the per-component license files as (file name, bytes) pairs, or the
uncaught exception. -/
def generate_output (net : String → Option String)
    (parse : String → Option XmlNode) (pkgEnum : List (String × String))
    (dirs : List BundledDir) :
    Except Unit (String × List (String × String)) :=
  match generate_components net parse pkgEnum dirs with
  | .error e => .error e
  | .ok comps =>
    .ok (notice_text comps,
      comps.map (fun c => (license_file_name c, license_file_text c dirs)))

/-! ## The drift checker (`check_third_party_notices.py`) -/

/-- The outcome of one `subprocess.run` call. -/
structure ProcResult where
  returncode : Int
  stdout : String
  stderr : String

/-- The body of the checker's `main`.  `gen` is the generator subprocess,
`diff` is `git diff --exit-code -- THIRD_PARTY_NOTICES.md LICENSES`
(non-zero exit iff some compared file differs from the committed copy),
`others` is `git ls-files --others --exclude-standard ...` (on success
its stdout lists the untracked files under the output paths).  Returns
the exit code and everything printed, in order. -/
def check_main (gen diff others : ProcResult) : Int × List String :=
  let out := [gen.stdout, gen.stderr]
  if gen.returncode ≠ 0 then (gen.returncode, out)
  else if diff.returncode ≠ 0 then
    (1, out ++ ["[ERROR] THIRD_PARTY_NOTICES.md and/or LICENSES are out of date. Run generator and commit changes.",
      diff.stdout, diff.stderr])
  else if others.returncode = 0 ∧ pyStrip others.stdout ≠ "" then
    (1, out ++ ["[ERROR] Untracked notices/license files detected:", pyStrip others.stdout])
  else
    (0, out ++ ["[OK] THIRD_PARTY_NOTICES and LICENSES are present and up-to-date."])

/-! ## Claims -/

theorem fetchAll_of_net_down (net : String → Option String)
    (parse : String → Option XmlNode) (hnet : ∀ u, net u = none) :
    ∀ ps : List (String × String),
      fetchAll net parse ps =
        .ok (ps.map (fun p => toComponent p.1 p.2 unknownFetchRecord)) := by
  intro ps
  induction ps with
  | nil => rfl
  | cons p ps ih =>
    simp only [fetchAll, fetch_nuspec_metadata, hnet, ih, List.map_cons]

/-- C1, counterexample.  The claim says a malformed registry document is
converted into the UNKNOWN placeholder record; in the code
`ET.fromstring(data)` sits outside the `try`/`except`, so the
`ParseError` raised on a malformed body propagates out of the fetcher
uncaught. -/
theorem C1_counterexample :
    fetch_nuspec_metadata (fun _ => some "this is not XML") (fun _ => none)
      "Newtonsoft.Json" "13.0.3" = .error () := by decide

/-- C1, amended: on any failure while performing the network request
(connection error, timeout, failed read) the fetcher returns a record
with license name exactly "UNKNOWN", empty license URL, empty homepage
and a non-empty explanatory note, and generation of the overall report
still completes; a failure while parsing a fetched document, however,
propagates as an exception. -/
theorem C1_fetch_fail_open (net : String → Option String)
    (parse : String → Option XmlNode) (package_id version : String)
    (pkgEnum : List (String × String)) (dirs : List BundledDir)
    (hnet : ∀ u, net u = none) :
    fetch_nuspec_metadata net parse package_id version = .ok unknownFetchRecord ∧
    unknownFetchRecord.license_name = "UNKNOWN" ∧
    unknownFetchRecord.license_url = "" ∧
    unknownFetchRecord.homepage = "" ∧
    unknownFetchRecord.notes ≠ "" ∧
    generate_output net parse pkgEnum dirs ≠ .error () := by
  refine ⟨?_, rfl, rfl, rfl, by decide, ?_⟩
  · simp [fetch_nuspec_metadata, hnet]
  · simp [generate_output, generate_components, fetchAll_of_net_down net parse hnet]

/-- C1, witness for the amended theorem at a concrete dead network. -/
theorem C1_witness :
    fetch_nuspec_metadata (fun _ => none) (fun _ => none) "Serilog" "3.1.1" =
      .ok unknownFetchRecord ∧
    unknownFetchRecord.license_name = "UNKNOWN" ∧
    unknownFetchRecord.license_url = "" ∧
    unknownFetchRecord.homepage = "" ∧
    unknownFetchRecord.notes ≠ "" ∧
    generate_output (fun _ => none) (fun _ => none) [("Serilog", "3.1.1")] [] ≠
      .error () :=
  C1_fetch_fail_open (fun _ => none) (fun _ => none) "Serilog" "3.1.1"
    [("Serilog", "3.1.1")] [] (fun _ => rfl)

theorem subSafeAux_all_safe :
    ∀ (l : List Char) (flag : Bool), ((subSafeAux flag l).all isSafeChar) = true := by
  intro l
  induction l with
  | nil => intro flag; rfl
  | cons c cs ih =>
    intro flag
    by_cases h : isSafeChar c = true
    · simp [subSafeAux, h, ih]
    · have h' : isSafeChar c = false := by
        cases hh : isSafeChar c
        · rfl
        · exact absurd hh h
      have hu : isSafeChar '_' = true := by decide
      cases flag
      · simp [subSafeAux, h', ih, hu]
      · simp [subSafeAux, h', ih]

/-- C2, counterexample.  The regex in `safe_file_name` replaces each
maximal RUN of unsafe characters with a single underscore (its character
class is quantified with `+`), so two component names that differ only in
a sanitised character map to the same file name: distinct identity tuples
do collide, contrary to the claim. -/
theorem C2_counterexample :
    ("a#b" : String) ≠ "a@b" ∧
    license_file_name ⟨"a#b", "1.0", "NuGet", "MIT", "", "", ""⟩ =
      license_file_name ⟨"a@b", "1.0", "NuGet", "MIT", "", "", ""⟩ ∧
    safe_file_name "a##b" = "a_b" := by decide

/-- C2, amended: the license file name is derived from (source, sanitised
name, sanitised version), where each maximal run of characters outside
{letters, digits, '.', '_', '-'} becomes one '_'; whenever the source tag
itself consists of safe characters (as "NuGet" and "Bundled" do), every
character of the resulting file name lies in the safe set.  Distinct
identity tuples can, however, collide after sanitisation. -/
theorem C2_safe_file_name_chars (c : Component)
    (hs : c.source.data.all isSafeChar = true) :
    (license_file_name c).data.all isSafeChar = true := by
  have h1 : ("_" : String).data.all isSafeChar = true := by decide
  have h2 : (".txt" : String).data.all isSafeChar = true := by decide
  have hname : (safe_file_name c.name).data.all isSafeChar = true :=
    subSafeAux_all_safe c.name.data false
  have hver : (safe_file_name c.version).data.all isSafeChar = true :=
    subSafeAux_all_safe c.version.data false
  have hu : isSafeChar '_' = true := by decide
  simp [license_file_name, String.data_append, List.all_append, hs, h1, h2, hname, hver, hu]

/-- C2, witness: a file name built from a hostile component name
evaluates to safe characters only. -/
theorem C2_witness :
    (license_file_name
      ⟨"My/Package@2.0", "1.0+build", "NuGet", "MIT", "", "", ""⟩).data.all
        isSafeChar = true :=
  C2_safe_file_name_chars _ (by decide)

theorem entryPair_eq_some (e : PackageReference) (n v : String) :
    entryPair e = some (n, v) ↔
      (∃ s, e.includeAttr = some s ∧ s ≠ "" ∧ pyStrip s = n) ∧
      pyOrOpt e.versionAttr (pyOrOpt e.versionChild "") ≠ "" ∧
      pyStrip (pyOrOpt e.versionAttr (pyOrOpt e.versionChild "")) = v := by
  cases e with
  | mk inc va vc =>
    cases inc with
    | none => simp [entryPair]
    | some s =>
      by_cases hs : s = ""
      · subst hs; simp [entryPair]
      · by_cases hv : pyOrOpt va (pyOrOpt vc "") = ""
        · simp [entryPair, hs, hv]
        · have hcond : s ≠ "" ∧ pyOrOpt va (pyOrOpt vc "") ≠ "" := ⟨hs, hv⟩
          have hred : entryPair ⟨some s, va, vc⟩ =
              some (pyStrip s, pyStrip (pyOrOpt va (pyOrOpt vc ""))) := by
            simp [entryPair, hcond]
          rw [hred]
          simp only [Option.some.injEq, Prod.mk.injEq]
          constructor
          · rintro ⟨hn, hvv⟩
            exact ⟨⟨s, rfl, hs, hn⟩, hv, hvv⟩
          · rintro ⟨⟨s', hs', hs'ne, hn⟩, hvne, hvv⟩
            subst hs'
            exact ⟨hn, hvv⟩

/-- C3, counterexample.  The truthiness test `if include and version:`
runs on the raw attribute values, before `.strip()`: an entry whose name
is whitespace-only is truthy, so it IS collected — as the pair
`("", "1.0")` — although its name is blank after trimming.  The claim
says such an entry is excluded. -/
theorem C3_counterexample :
    pyStrip "   " = "" ∧
    read_csproj_packages (collectedPairs
      [{ includeAttr := some "   ", versionAttr := some "1.0", versionChild := none }]) =
      [("", "1.0")] := by decide

/-- C3, amended: a pair (n, v) is collected iff some manifest entry has a
present, non-empty raw `Include` attribute stripping to n and a raw
version value (the `Version` attribute, else the nested `Version`
element's text, Python-`or` semantics) that is non-empty BEFORE trimming
and strips to v.  Entries whose name or version is empty are excluded,
but whitespace-only values pass the check and are collected in trimmed
(possibly empty) form. -/
theorem C3_collected_iff (entries : List PackageReference)
    (enum : List (String × String)) (hperm : enum.Perm (collectedPairs entries))
    (n v : String) :
    (n, v) ∈ read_csproj_packages enum ↔
      ∃ e ∈ entries,
        (∃ s, e.includeAttr = some s ∧ s ≠ "" ∧ pyStrip s = n) ∧
        pyOrOpt e.versionAttr (pyOrOpt e.versionChild "") ≠ "" ∧
        pyStrip (pyOrOpt e.versionAttr (pyOrOpt e.versionChild "")) = v := by
  rw [read_csproj_packages, (pySorted_perm _ enum).mem_iff, hperm.mem_iff,
    collectedPairs, List.mem_dedup, List.mem_filterMap]
  constructor
  · rintro ⟨e, he, hp⟩
    exact ⟨e, he, (entryPair_eq_some e n v).mp hp⟩
  · rintro ⟨e, he, h⟩
    exact ⟨e, he, (entryPair_eq_some e n v).mpr h⟩

/-- C3, witness: a concrete entry with padded name and version is
collected in trimmed form. -/
theorem C3_witness :
    ("newtonsoft", "13.0") ∈ read_csproj_packages (collectedPairs
      [{ includeAttr := some " newtonsoft ", versionAttr := none,
         versionChild := some " 13.0 " }]) :=
  (C3_collected_iff
    [{ includeAttr := some " newtonsoft ", versionAttr := none,
       versionChild := some " 13.0 " }]
    _ (List.Perm.refl _) "newtonsoft" "13.0").mpr
    ⟨{ includeAttr := some " newtonsoft ", versionAttr := none,
       versionChild := some " 13.0 " },
      List.mem_singleton.mpr rfl,
      ⟨" newtonsoft ", rfl, by decide, by decide⟩, by decide, by decide⟩

/-- C4: when the fetched document's license element carries type
"expression" with (stripped, non-empty) value E the stored license string
is "SPDX: E", and when it carries type "file" with value F the stored
string is "License file: F".  (The attribute comparison is
case-insensitive in the code; the value is the element text as the
script's `txt` helper extracts it.) -/
theorem C4_license_kind (net : String → Option String) (parse : String → Option XmlNode)
    (package_id version data E : String) (root lic : XmlNode)
    (hnet : net (nuspec_url (lowerStr package_id) (lowerStr version)) = some data)
    (hparse : parse data = some root)
    (hlic : findMetaChild root "license" = some lic)
    (hE : txtMeta root "license" = E) (hNe : E ≠ "") :
    (lowerStr (attribGet lic "type" "") = "expression" →
      (fetch_nuspec_metadata net parse package_id version).map MetaRecord.license_name =
        .ok ("SPDX: " ++ E)) ∧
    (lowerStr (attribGet lic "type" "") = "file" →
      (fetch_nuspec_metadata net parse package_id version).map MetaRecord.license_name =
        .ok ("License file: " ++ E)) := by
  constructor
  · intro ht
    simp [fetch_nuspec_metadata, hnet, hparse, hlic, hE, hNe, ht, Except.map]
  · intro ht
    have hne : ¬ lowerStr (attribGet lic "type" "") = "expression" := by
      rw [ht]; decide
    simp [fetch_nuspec_metadata, hnet, hparse, hlic, hE, hNe, ht, hne, Except.map]

def c4ExprLic : XmlNode := .elem "license" [("type", "expression")] (some "MIT") []

def c4ExprDoc : XmlNode := .elem "package" [] none [.elem "metadata" [] none [c4ExprLic]]

def c4FileLic : XmlNode := .elem "license" [("type", "file")] (some "LICENSE") []

def c4FileDoc : XmlNode := .elem "package" [] none [.elem "metadata" [] none [c4FileLic]]

/-- C4, witness: the two example documents of the claim. -/
theorem C4_witness :
    (fetch_nuspec_metadata (fun _ => some "doc") (fun _ => some c4ExprDoc)
        "Pkg" "1.0").map MetaRecord.license_name = .ok ("SPDX: " ++ "MIT") ∧
    (fetch_nuspec_metadata (fun _ => some "doc") (fun _ => some c4FileDoc)
        "Pkg" "1.0").map MetaRecord.license_name = .ok ("License file: " ++ "LICENSE") :=
  ⟨(C4_license_kind (fun _ => some "doc") (fun _ => some c4ExprDoc) "Pkg" "1.0"
      "doc" "MIT" c4ExprDoc c4ExprLic rfl rfl rfl rfl (by decide)).1 rfl,
   (C4_license_kind (fun _ => some "doc") (fun _ => some c4FileDoc) "Pkg" "1.0"
      "doc" "LICENSE" c4FileDoc c4FileLic rfl rfl rfl rfl (by decide)).2 rfl⟩

/-- Position of the first occurrence of a file name in a candidate
list. -/
def idxIn : List String → String → Nat
  | [], _ => 0
  | y :: ys, x => if y == x then 0 else idxIn ys x + 1

theorem find?_idxIn_min (p : String → Bool) :
    ∀ (l : List String) (a : String), l.find? p = some a →
      ∀ b ∈ l, p b = true → idxIn l a ≤ idxIn l b := by
  intro l
  induction l with
  | nil => intro a h; simp [List.find?] at h
  | cons y ys ih =>
    intro a h b hb hpb
    by_cases hy : p y = true
    · rw [List.find?_cons_of_pos _ hy] at h
      injection h with ha
      subst ha
      simp [idxIn]
    · have hy' : ¬ p y = true := hy
      rw [List.find?_cons_of_neg _ hy'] at h
      have hpa : p a = true := List.find?_some h
      have hya : (y == a) = false := by
        cases hh : y == a
        · rfl
        · exact absurd (by rw [eq_of_beq hh]; exact hpa) hy'
      rcases List.mem_cons.mp hb with rfl | hb'
      · exact absurd hpb hy'
      · have hyb : (y == b) = false := by
          cases hh : y == b
          · rfl
          · exact absurd (by rw [eq_of_beq hh]; exact hpb) hy'
        simp only [idxIn, hya, hyb, Bool.false_eq_true, if_false]
        exact Nat.succ_le_succ (ih a h b hb' hpb)

/-- C5: the bundled-component scanner tries the candidate file names in
the declared order and selects the first that exists; with no candidate
present the emitted component carries the UNKNOWN sentinel and the
"no file detected" note, and with a candidate present it carries the
"See bundled files" placeholder and its license record's line list embeds
the selected file's contents verbatim. -/
theorem C5_bundled_scanner (dirs : List BundledDir) (d : BundledDir)
    (hd : d ∈ dirs)
    (hlook : dirs.find? (fun x => x.name == d.name) = some d) :
    bundledComponent d ∈ detect_bundled_components dirs ∧
    LICENSE_FILE_CANDIDATES =
      ["LICENSE", "LICENSE.txt", "LICENSE.md", "COPYING", "COPYING.txt",
        "NOTICE", "NOTICE.txt"] ∧
    (findLicenseFile d = none →
      (∀ n ∈ LICENSE_FILE_CANDIDATES, d.files.contains n = false) ∧
      (bundledComponent d).license_name = "UNKNOWN" ∧
      (bundledComponent d).notes = "No bundled license file detected.") ∧
    (∀ f, findLicenseFile d = some f →
      f ∈ LICENSE_FILE_CANDIDATES ∧ d.files.contains f = true ∧
      (∀ n ∈ LICENSE_FILE_CANDIDATES, d.files.contains n = true →
        idxIn LICENSE_FILE_CANDIDATES f ≤ idxIn LICENSE_FILE_CANDIDATES n) ∧
      (bundledComponent d).license_name = "See bundled files" ∧
      (bundledComponent d).notes = "License file copied from bundled component." ∧
      d.content f ∈ license_file_lines (bundledComponent d) dirs) := by
  refine ⟨?_, rfl, ?_, ?_⟩
  · exact List.mem_map_of_mem bundledComponent
      ((pySorted_perm (keyLt dirKey) dirs).mem_iff.mpr hd)
  · intro h
    refine ⟨?_, ?_, ?_⟩
    · intro n hn
      have := List.find?_eq_none.mp h n hn
      cases hh : d.files.contains n
      · rfl
      · exact absurd hh this
    · simp [bundledComponent, h]
    · simp [bundledComponent, h]
  · intro f h
    refine ⟨List.mem_of_find?_eq_some h, List.find?_some h,
      find?_idxIn_min _ LICENSE_FILE_CANDIDATES f h, ?_, ?_, ?_⟩
    · simp [bundledComponent, h]
    · simp [bundledComponent, h]
    · have h1 : (bundledComponent d).source = "Bundled" := rfl
      have h2 : (bundledComponent d).name = d.name := rfl
      simp only [license_file_lines, h1, h2, hlook, h, if_pos]
      simp

def c5DirA : BundledDir :=
  ⟨"libfoo", ["README", "COPYING", "LICENSE.txt"],
    fun f => if f = "LICENSE.txt" then "MIT license body\n" else "(other)"⟩

def c5DirB : BundledDir := ⟨"libbar", ["README"], fun _ => ""⟩

/-- C5, witness: a vendored tree with one directory carrying a
`LICENSE.txt` (but no `LICENSE`): the file is selected, the placeholder
license name is emitted and the file body is embedded. -/
theorem C5_witness :
    bundledComponent c5DirA ∈ detect_bundled_components [c5DirA, c5DirB] ∧
    "LICENSE.txt" ∈ LICENSE_FILE_CANDIDATES ∧
    (bundledComponent c5DirA).license_name = "See bundled files" ∧
    "MIT license body\n" ∈ license_file_lines (bundledComponent c5DirA) [c5DirA, c5DirB] := by
  have h := C5_bundled_scanner [c5DirA, c5DirB] c5DirA (List.mem_cons_self _ _) rfl
  have h3 := h.2.2.2 "LICENSE.txt" rfl
  exact ⟨h.1, h3.1, h3.2.2.2.1, h3.2.2.2.2.2⟩

/-- C6: the drift checker exits with the generator's own code when
generation fails, exits 1 when the regenerated files differ from the
committed copies (non-zero `git diff --exit-code`) or when the untracked
listing succeeds and is non-blank, and otherwise prints the confirmation
message and exits 0. -/
theorem C6_drift_checker (gen diff others : ProcResult) :
    (gen.returncode ≠ 0 →
      check_main gen diff others = (gen.returncode, [gen.stdout, gen.stderr])) ∧
    (gen.returncode = 0 → diff.returncode ≠ 0 →
      (check_main gen diff others).1 = 1) ∧
    (gen.returncode = 0 → diff.returncode = 0 → others.returncode = 0 →
      pyStrip others.stdout ≠ "" → (check_main gen diff others).1 = 1) ∧
    (gen.returncode = 0 → diff.returncode = 0 →
      ¬(others.returncode = 0 ∧ pyStrip others.stdout ≠ "") →
      (check_main gen diff others).1 = 0 ∧
      "[OK] THIRD_PARTY_NOTICES and LICENSES are present and up-to-date."
        ∈ (check_main gen diff others).2) := by
  refine ⟨?_, ?_, ?_, ?_⟩
  · intro h1
    simp [check_main, h1]
  · intro h1 h2
    simp [check_main, h1, h2]
  · intro h1 h2 h3 h4
    simp [check_main, h1, h2, h3, h4]
  · intro h1 h2 h3
    simp [check_main, h1, h2, h3]

/-- C6, witness: the four outcomes at concrete subprocess results. -/
theorem C6_witness :
    check_main ⟨3, "o", "e"⟩ ⟨0, "", ""⟩ ⟨0, "", ""⟩ = (3, ["o", "e"]) ∧
    (check_main ⟨0, "o", ""⟩ ⟨1, "d", "de"⟩ ⟨0, "", ""⟩).1 = 1 ∧
    (check_main ⟨0, "o", ""⟩ ⟨0, "", ""⟩ ⟨0, "LICENSES/new.txt\n", ""⟩).1 = 1 ∧
    (check_main ⟨0, "o", ""⟩ ⟨0, "", ""⟩ ⟨0, " ", ""⟩).1 = 0 :=
  ⟨(C6_drift_checker ⟨3, "o", "e"⟩ ⟨0, "", ""⟩ ⟨0, "", ""⟩).1 (by decide),
   (C6_drift_checker ⟨0, "o", ""⟩ ⟨1, "d", "de"⟩ ⟨0, "", ""⟩).2.1 rfl (by decide),
   (C6_drift_checker ⟨0, "o", ""⟩ ⟨0, "", ""⟩ ⟨0, "LICENSES/new.txt\n", ""⟩).2.2.1
      rfl rfl rfl (by decide),
   ((C6_drift_checker ⟨0, "o", ""⟩ ⟨0, "", ""⟩ ⟨0, " ", ""⟩).2.2.2
      rfl rfl (by decide)).1⟩

theorem append_ne_empty_left (s t : String) (hs : s ≠ "") : s ++ t ≠ "" := by
  intro h
  apply hs
  have hd := congrArg String.data h
  rw [String.data_append] at hd
  rcases List.append_eq_nil.mp hd with ⟨h1, _⟩
  exact String.ext h1

theorem fetch_license_name_nonempty (net : String → Option String)
    (parse : String → Option XmlNode) (package_id version : String) (r : MetaRecord)
    (h : fetch_nuspec_metadata net parse package_id version = .ok r) :
    r.license_name ≠ "" := by
  cases hn : net (nuspec_url (lowerStr package_id) (lowerStr version)) with
  | none =>
    simp only [fetch_nuspec_metadata, hn] at h
    injection h with hr
    subst hr
    decide
  | some data =>
    cases hp : parse data with
    | none =>
      simp only [fetch_nuspec_metadata, hn, hp] at h
      simp at h
    | some root =>
      simp only [fetch_nuspec_metadata, hn, hp] at h
      injection h with hr
      subst hr
      simp only
      by_cases hE : txtMeta root "license" = ""
      · simp [hE]
      · rw [if_neg hE]
        cases hlic : findMetaChild root "license" with
        | none => exact hE
        | some lic =>
          show (if lowerStr (attribGet lic "type" "") = "expression" then
              "SPDX: " ++ txtMeta root "license"
            else if lowerStr (attribGet lic "type" "") = "file" then
              "License file: " ++ txtMeta root "license"
            else txtMeta root "license") ≠ ""
          by_cases h1 : lowerStr (attribGet lic "type" "") = "expression"
          · rw [if_pos h1]
            exact append_ne_empty_left "SPDX: " _ (by decide)
          · rw [if_neg h1]
            by_cases h2 : lowerStr (attribGet lic "type" "") = "file"
            · rw [if_pos h2]
              exact append_ne_empty_left "License file: " _ (by decide)
            · rw [if_neg h2]
              exact hE

theorem fetchAll_mem (net : String → Option String) (parse : String → Option XmlNode) :
    ∀ (ps : List (String × String)) (cs : List Component),
      fetchAll net parse ps = .ok cs → ∀ c ∈ cs,
        ∃ (p : String × String) (m : MetaRecord),
          fetch_nuspec_metadata net parse p.1 p.2 = .ok m ∧
          c = toComponent p.1 p.2 m := by
  intro ps
  induction ps with
  | nil =>
    intro cs h c hc
    injection h with hcs
    subst hcs
    simp at hc
  | cons p ps ih =>
    intro cs h c hc
    cases hf : fetch_nuspec_metadata net parse p.1 p.2 with
    | error e => simp only [fetchAll, hf] at h; simp at h
    | ok m =>
      cases hrest : fetchAll net parse ps with
      | error e => simp only [fetchAll, hf, hrest] at h; simp at h
      | ok cs' =>
        simp only [fetchAll, hf, hrest] at h
        injection h with hcs
        subst hcs
        rcases List.mem_cons.mp hc with rfl | hc'
        · exact ⟨p, m, hf, rfl⟩
        · exact ih cs' hrest c hc'

/-- C7: every component in a completed run's component list has a
non-empty license name: the UNKNOWN sentinel (or a placeholder / derived
string) is used, never an empty or missing field. -/
theorem C7_nonempty_license (net : String → Option String)
    (parse : String → Option XmlNode) (pkgEnum : List (String × String))
    (dirs : List BundledDir) (comps : List Component)
    (h : generate_components net parse pkgEnum dirs = .ok comps) :
    ∀ c ∈ comps, c.license_name ≠ "" := by
  intro c hc
  cases hf : fetchAll net parse (read_csproj_packages pkgEnum) with
  | error e => simp only [generate_components, hf] at h; simp at h
  | ok nuget =>
    simp only [generate_components, hf] at h
    injection h with hcomps
    subst hcomps
    have hc' : c ∈ nuget ++ detect_bundled_components dirs :=
      (pySorted_perm _ _).mem_iff.mp hc
    rcases List.mem_append.mp hc' with h1 | h1
    · rcases fetchAll_mem net parse _ nuget hf c h1 with ⟨p, m, hm, rfl⟩
      exact fetch_license_name_nonempty net parse p.1 p.2 m hm
    · rcases List.mem_map.mp h1 with ⟨d, hd, rfl⟩
      cases hlic : (findLicenseFile d).isSome
      · simp only [bundledComponent, hlic]
        decide
      · simp only [bundledComponent, hlic]
        decide

/-- C7, witness: an unreachable registry still yields a component whose
license field is the non-empty UNKNOWN sentinel. -/
theorem C7_witness :
    (toComponent "Serilog" "3.1.1" unknownFetchRecord).license_name ≠ "" :=
  C7_nonempty_license (fun _ => none) (fun _ => none) [("Serilog", "3.1.1")] []
    [toComponent "Serilog" "3.1.1" unknownFetchRecord] rfl
    (toComponent "Serilog" "3.1.1" unknownFetchRecord) (List.mem_singleton.mpr rfl)

/-- C8: the collector's result has no duplicate pair and is sorted
ascending by the key (lower-cased name, version): along the output, a
later element's key is never strictly below an earlier element's key. -/
theorem C8_dedup_sorted (entries : List PackageReference)
    (enum : List (String × String)) (hperm : enum.Perm (collectedPairs entries)) :
    (read_csproj_packages enum).Nodup ∧
    (read_csproj_packages enum).Pairwise (fun a b => keyLt pkgKey b a = false) := by
  constructor
  · exact ((pySorted_perm (keyLt pkgKey) enum).trans hperm).nodup_iff.mpr
      (List.nodup_dedup _)
  · exact pairwise_pySorted pkgKey enum

/-- C8, witness: two identical manifest entries collapse to one element
and the output is key-sorted. -/
theorem C8_witness :
    (read_csproj_packages (collectedPairs
      [⟨some "Zlib.Net", some "1.0", none⟩, ⟨some "Zlib.Net", some "1.0", none⟩,
        ⟨some "abc", some "2.0", none⟩])).Nodup ∧
    (read_csproj_packages (collectedPairs
      [⟨some "Zlib.Net", some "1.0", none⟩, ⟨some "Zlib.Net", some "1.0", none⟩,
        ⟨some "abc", some "2.0", none⟩])).Pairwise
      (fun a b => keyLt pkgKey b a = false) :=
  C8_dedup_sorted
    [⟨some "Zlib.Net", some "1.0", none⟩, ⟨some "Zlib.Net", some "1.0", none⟩,
      ⟨some "abc", some "2.0", none⟩] _ (List.Perm.refl _)

def c9Net : String → Option String := fun _ => none

def c9Parse : String → Option XmlNode := fun _ => none

/-- C9, counterexample.  Two runs over the same collected set can emit
different bytes: the pairs ("A", "1.0") and ("a", "1.0") share the sort
key (lower-cased name, version), and Python's `sorted` is stable, so the
tie is emitted in whatever order the `set` happened to be enumerated —
an order that is not fixed across processes (per-process string-hash
randomisation).  The two enumerations below are permutations of one
another, yet the generated report bytes differ. -/
theorem C9_counterexample :
    [(("A" : String), ("1.0" : String)), ("a", "1.0")].Perm
      [("a", "1.0"), ("A", "1.0")] ∧
    generate_output c9Net c9Parse [("A", "1.0"), ("a", "1.0")] [] ≠
      generate_output c9Net c9Parse [("a", "1.0"), ("A", "1.0")] [] := by
  constructor
  · decide
  · set_option maxRecDepth 8000 in decide

/-- C9, amended: with the network layer held fixed, two runs whose
collected package sets are enumerated in any two orders produce
byte-identical output, provided no two distinct collected pairs share
the (lower-cased name, version) sort key. -/
theorem C9_deterministic (net : String → Option String)
    (parse : String → Option XmlNode) (enum₁ enum₂ : List (String × String))
    (dirs : List BundledDir) (hperm : enum₁.Perm enum₂)
    (hinj : enum₁.Pairwise (fun a b => pkgKey a ≠ pkgKey b)) :
    generate_output net parse enum₁ dirs = generate_output net parse enum₂ dirs := by
  have hsorted : read_csproj_packages enum₁ = read_csproj_packages enum₂ := by
    apply sorted_unique pkgKey
    · exact (pySorted_perm _ enum₁).trans (hperm.trans (pySorted_perm _ enum₂).symm)
    · exact pairwise_pySorted pkgKey enum₁
    · exact pairwise_pySorted pkgKey enum₂
    · exact ((pySorted_perm (keyLt pkgKey) enum₁).pairwise_iff
        (fun h => Ne.symm h)).mpr hinj
  unfold generate_output generate_components
  rw [hsorted]

/-- C9, witness: distinct keys, swapped enumeration, identical bytes. -/
theorem C9_witness :
    generate_output c9Net c9Parse [("A", "1.0"), ("B", "2.0")] [] =
      generate_output c9Net c9Parse [("B", "2.0"), ("A", "1.0")] [] :=
  C9_deterministic c9Net c9Parse [("A", "1.0"), ("B", "2.0")]
    [("B", "2.0"), ("A", "1.0")] [] (by decide) (by decide)

/-- C10: when the license element's type attribute is neither
"expression" nor "file" (including when it is absent), the fetcher
stores the element's extracted text with no prefix; when that text is
empty (absent, empty or whitespace-only) the stored license name is
"UNKNOWN", while an independently present license URL is still
preserved in the record. -/
theorem C10_plain_license (net : String → Option String)
    (parse : String → Option XmlNode) (package_id version data : String)
    (root lic : XmlNode)
    (hnet : net (nuspec_url (lowerStr package_id) (lowerStr version)) = some data)
    (hparse : parse data = some root)
    (hlic : findMetaChild root "license" = some lic)
    (htype : lowerStr (attribGet lic "type" "") ≠ "expression" ∧
      lowerStr (attribGet lic "type" "") ≠ "file") :
    fetch_nuspec_metadata net parse package_id version =
      .ok { license_name := if txtMeta root "license" = "" then "UNKNOWN"
              else txtMeta root "license"
            license_url := txtMeta root "licenseUrl"
            homepage := txtMeta root "projectUrl"
            notes := "" } := by
  by_cases hE : txtMeta root "license" = ""
  · simp [fetch_nuspec_metadata, hnet, hparse, hE]
  · simp [fetch_nuspec_metadata, hnet, hparse, hlic, hE, htype.1, htype.2]

def c10PlainLic : XmlNode := .elem "license" [] (some " Apache-2.0 ") []

def c10PlainDoc : XmlNode :=
  .elem "package" [] none
    [.elem "metadata" [] none
      [c10PlainLic, .elem "licenseUrl" [] (some "https://u.example") []]]

def c10EmptyLic : XmlNode := .elem "license" [] (some "   ") []

def c10EmptyDoc : XmlNode :=
  .elem "package" [] none
    [.elem "metadata" [] none
      [c10EmptyLic, .elem "licenseUrl" [] (some "https://u.example") []]]

/-- C10, witness: an untyped license element stores its stripped text
unprefixed, and a whitespace-only one falls back to UNKNOWN with the
license URL still preserved. -/
theorem C10_witness :
    fetch_nuspec_metadata (fun _ => some "doc") (fun _ => some c10PlainDoc)
      "Pkg" "1.0" = .ok ⟨"Apache-2.0", "https://u.example", "", ""⟩ ∧
    fetch_nuspec_metadata (fun _ => some "doc") (fun _ => some c10EmptyDoc)
      "Pkg" "1.0" = .ok ⟨"UNKNOWN", "https://u.example", "", ""⟩ :=
  ⟨C10_plain_license (fun _ => some "doc") (fun _ => some c10PlainDoc) "Pkg" "1.0"
      "doc" c10PlainDoc c10PlainLic rfl rfl rfl (by decide),
   C10_plain_license (fun _ => some "doc") (fun _ => some c10EmptyDoc) "Pkg" "1.0"
      "doc" c10EmptyDoc c10EmptyLic rfl rfl rfl (by decide)⟩
